import Mathlib

set_option maxRecDepth 8192

/-!
Shallow embedding of `fact/io.py` (pyfact): a tabular-data access layer over
h5py-style raw containers and pandas table files.

Conventions of the embedding:
* numpy arrays are modelled by `NArr`: a row-major flat list of elements,
  each element a list of bytes of length `itemsize`, together with a shape
  and a dtype carrying a byte-order tag (`'='`, `'<'`, `'>'`, `'|'`).
* The host's `sys.byteorder` is a parameter `host : Endian` threaded through
  every definition that reads the module constant `native_byteorder`.
* h5py files are finite association lists of groups, groups are association
  lists of datasets, in the container's natural key order.
* Exceptions are values of `Exc`; fallible Python code returns `Except Exc`.
* A Python generator is modelled by its completed run `GenRun`: the list of
  yielded elements followed by an optional exception.  Per Python semantics,
  calling a generator function executes none of its body; the call itself is
  modelled by `PyCall`, which for a generator function always `returned`.
-/

/-- `sys.byteorder` of the executing host. -/
inductive Endian where
  | little
  | big
deriving DecidableEq

/-- A numpy dtype byte-order character: `'='`, `'<'`, `'>'` or `'|'`. -/
inductive ByteOrder where
  | eq   -- '=' native
  | lt   -- '<' little-endian
  | gt   -- '>' big-endian
  | na   -- '|' not applicable (single-byte / flexible dtypes)
deriving DecidableEq

/-- `native_byteorder = {'little': '<', 'big': '>'}[sys.byteorder]` (io.py line 24). -/
def native_byteorder : Endian → ByteOrder
  | .little => .lt
  | .big => .gt

/-- numpy `dtype.newbyteorder()` (default `'S'`, swap) on the byte-order
character: `'<'↔'>'`, `'|'` unchanged, `'='` becomes the non-native order. -/
def swapByteOrder (host : Endian) : ByteOrder → ByteOrder
  | .lt => .gt
  | .gt => .lt
  | .na => .na
  | .eq => match host with
    | .little => .gt
    | .big => .lt

/-- A numpy dtype: byte-order tag and element width in bytes. -/
structure Dtype where
  byteorder : ByteOrder
  itemsize : Nat
deriving DecidableEq

/-- A numpy ndarray: row-major flat element list, each element `itemsize`
bytes, with an explicit shape.  `ndim = shape.length`. -/
structure NArr where
  shape : List Nat
  dtype : Dtype
  data : List (List Nat)
deriving DecidableEq

namespace NArr

def ndim (a : NArr) : Nat := a.shape.length

/-- Well-formedness of a real numpy array: the flat data has `shape.prod`
elements, every element has `itemsize` bytes, and a `'|'` byte-order tag only
occurs on single-byte dtypes. -/
def wf (a : NArr) : Prop :=
  a.data.length = a.shape.prod ∧
  (∀ b ∈ a.data, b.length = a.dtype.itemsize) ∧
  (a.dtype.byteorder = .na → a.dtype.itemsize = 1)

/-- numpy `array.byteswap()`: reverse the bytes of every element. -/
def byteswap (a : NArr) : NArr :=
  { a with data := a.data.map List.reverse }

/-- numpy `array.newbyteorder()`: same data, byte-order tag swapped. -/
def newbyteorder (host : Endian) (a : NArr) : NArr :=
  { a with dtype := { a.dtype with byteorder := swapByteOrder host a.dtype.byteorder } }

/-- Little-endian value of a byte list (least significant byte first). -/
def leVal : List Nat → Nat
  | [] => 0
  | b :: bs => b + 256 * leVal bs

/-- Logical value of one element's bytes under a byte-order tag. -/
def elemVal (host : Endian) (bo : ByteOrder) (b : List Nat) : Nat :=
  match bo with
  | .lt => leVal b
  | .gt => leVal b.reverse
  | .na => leVal b
  | .eq => match host with
    | .little => leVal b
    | .big => leVal b.reverse

/-- Logical values of all elements of an array, in row-major order. -/
def values (host : Endian) (a : NArr) : List Nat :=
  a.data.map (elemVal host a.dtype.byteorder)

end NArr

/-- `to_native_byteorder(array)` (io.py lines 51-57):
`if array.dtype.byteorder not in ('=', native_byteorder): return
array.byteswap().newbyteorder()` else `return array`. -/
def to_native_byteorder (host : Endian) (array : NArr) : NArr :=
  if array.dtype.byteorder ≠ .eq ∧ array.dtype.byteorder ≠ native_byteorder host then
    (array.byteswap).newbyteorder host
  else
    array

/-- Which branch of `to_native_byteorder` runs: `true` iff the function
returns its argument itself (no copy); `false` iff it takes the
`byteswap().newbyteorder()` branch, which allocates a fresh array. -/
def to_native_byteorder_returns_input (host : Endian) (array : NArr) : Bool :=
  array.dtype.byteorder = .eq || array.dtype.byteorder = native_byteorder host

deriving instance DecidableEq for Except

/-- Python exceptions relevant to io.py's control flow. -/
inductive Exc where
  | ioError (msg : String)             -- IOError / OSError with a message
  | typeError                          -- TypeError (caught by read_data)
  | valueError                         -- ValueError (caught by read_data)
  | keyError (k : String)              -- KeyError from h5py group[col]
  | stopIteration                      -- next() on an exhausted iterator
  | indexError                         -- shape[0] of a rank-0 dataset
  | permissionError (p : String)       -- OS permission failure at open
  | fileNotFoundError (p : String)     -- opening a nonexistent path
  | notImplementedError (msg : String) -- raised by read_data's else branch
deriving DecidableEq

/-- A pandas DataFrame: an explicit row index plus named columns, each column
a 1-d array.  `df[col] = array` on the frames built here always introduces a
fresh name, so column assignment is modelled as appending. -/
structure Table where
  index : List Nat
  cols : List (String × NArr)
deriving DecidableEq

/-- `df[col] = array`: append the named column. -/
def Table.setCol (t : Table) (name : String) (a : NArr) : Table :=
  { t with cols := t.cols ++ [(name, a)] }

/-- numpy row-major axis-0 slice `a[start:stop]` with numpy's clamping. -/
def NArr.slice0 (a : NArr) (start stop : Nat) : NArr :=
  let n := a.shape.headD 0
  let stride := a.shape.tail.prod
  let s := min start n
  let e := min stop n
  { shape := (e - s) :: a.shape.tail
    dtype := a.dtype
    data := ((a.data.drop (s * stride)).take ((e - s) * stride)) }

/-- `a[:, i]` for a rank-2 array of shape `[n, w]`: element `i` of every row. -/
def NArr.colExtract (a : NArr) (i : Nat) : NArr :=
  let n := a.shape.headD 0
  let w := a.shape.tail.headD 0
  { shape := [n]
    dtype := a.dtype
    data := (List.range n).map (fun r => a.data.getD (r * w + i) []) }

/-- Row-wise concatenation of two arrays along axis 0 (used to state that
reassembled chunks equal the unchunked read). -/
def NArr.append0 (a b : NArr) : NArr :=
  { shape := (a.shape.headD 0 + b.shape.headD 0) :: a.shape.tail
    dtype := a.dtype
    data := a.data ++ b.data }

/-- `pd.concat` of two frames with identical column sets: indices append,
columns append pairwise. -/
def Table.vappend (t u : Table) : Table :=
  { index := t.index ++ u.index
    cols := List.zipWith (fun p q => (p.1, NArr.append0 p.2 q.2)) t.cols u.cols }

/-- `pd.concat` of a nonempty list of frames (empty list gives the empty frame). -/
def concatTables : List Table → Table
  | [] => { index := [], cols := [] }
  | t :: ts => ts.foldl Table.vappend t

/-- `np.arange(start, stop)`. -/
def rangeList (start stop : Nat) : List Nat :=
  List.range' start (stop - start)

/-- Association-list lookup, h5py `group.get(key)` / `group[key]`. -/
def lookupA (l : List (String × α)) (k : String) : Option α :=
  (l.find? (fun p => p.1 == k)).map (·.2)

/-- An h5py group: datasets in the container's natural key order. -/
abbrev HGroup := List (String × NArr)

/-- An h5py file: groups in natural key order. -/
abbrev HFile := List (String × HGroup)

/-- One file visible to h5py: its content and whether the caller may write it. -/
structure HEntry where
  content : HFile
  writable : Bool
deriving DecidableEq

/-- The world the readers run against.  `pandas` is the external
`pd.read_hdf(path, key, columns)` table codec (out of scope for this layer),
given as an oracle from path and key to its outcome; `jsonRead` and
`jsonlRead` are the external text decoders. -/
structure Env where
  files : String → Option HEntry
  pandas : String → Option String → Option (List String) → Except Exc Table
  jsonRead : String → Except Exc Table
  jsonlRead : String → Except Exc Table

/-- `h5py.File(file_path, mode)`: opening a missing path fails; opening an
existing file with the read-write mode `'r+'` fails unless the caller holds
write permission, even if it never writes. -/
def h5pyOpen (env : Env) (file_path mode : String) : Except Exc HFile :=
  match env.files file_path with
  | none => .error (.fileNotFoundError file_path)
  | some entry =>
    if mode = "r+" ∧ entry.writable = false then .error (.permissionError file_path)
    else .ok entry.content

/-- The message of `IOError('File does not contain group "{}"'.format(key))`. -/
def missingGroupMsg (key : String) : String :=
  "File does not contain group \"" ++ key ++ "\""

/-- The default column set: `[col for col in group.keys() if group[col].ndim == 1]`. -/
def defaultColumns (group : HGroup) : List String :=
  (group.map (·.1)).filter (fun c => (lookupA group c).elim false (fun a => a.ndim == 1))

/-- The per-column body of `read_h5py`'s loop (io.py lines 83-91): read the
whole dataset `group[col][:]`, normalize byte order, then emit one column for
rank 1, `W` columns `col_0 … col_{W-1}` for rank 2, and nothing (a warning)
otherwise. -/
def h5Block (host : Endian) (col : String) (ds : NArr) : List (String × NArr) :=
  let array := to_native_byteorder host ds
  if array.ndim = 1 then [(col, array)]
  else if array.ndim = 2 then
    (List.range (array.shape.tail.headD 0)).map
      (fun i => (col ++ "_" ++ toString i, array.colExtract i))
  else []

/-- `read_h5py`'s column loop: `h5Block` per column, in order; a missing
column name raises `KeyError` as h5py's `group[col]` does. -/
def read_h5py_cols (host : Endian) (group : HGroup) : List String → Except Exc (List (String × NArr))
  | [] => .ok []
  | col :: rest =>
    match lookupA group col with
    | none => .error (.keyError col)
    | some ds =>
      match read_h5py_cols host group rest with
      | .error e => .error e
      | .ok more => .ok (h5Block host col ds ++ more)

/-- `read_h5py(file_path, key='events', columns=None)` (io.py lines 60-93). -/
def read_h5py (host : Endian) (env : Env) (file_path key : String)
    (columns : Option (List String)) : Except Exc Table :=
  match h5pyOpen env file_path "r+" with
  | .error e => .error e
  | .ok f =>
    match lookupA f key with
    | none => .error (.ioError (missingGroupMsg key))
    | some group =>
      let cols := match columns with
        | none => defaultColumns group
        | some cs => cs
      match read_h5py_cols host group cols with
      | .error e => .error e
      | .ok pairs =>
        .ok { index := rangeList 0 ((pairs.headD ("", ⟨[], ⟨.eq, 0⟩, []⟩)).2.shape.headD 0)
              cols := pairs }

/-- `h5py_get_n_events(file_path, key='events')` (io.py lines 96-104): open
`'r+'`, fetch the group, and return `group[next(iter(group.keys()))].shape[0]`.
An empty group raises `StopIteration` at `next`. -/
def h5py_get_n_events (env : Env) (file_path key : String) : Except Exc Nat :=
  match h5pyOpen env file_path "r+" with
  | .error e => .error e
  | .ok f =>
    match lookupA f key with
    | none => .error (.ioError (missingGroupMsg key))
    | some group =>
      match group with
      | [] => .error .stopIteration
      | (_, ds) :: _ =>
        match ds.shape.head? with
        | none => .error .indexError
        | some n => .ok n

/-- The completed run of a Python generator: the elements it yielded, in
order, then the exception (if any) that ended it instead of normal return. -/
structure GenRun (α : Type) where
  yielded : List α
  err : Option Exc
deriving DecidableEq

/-- The outcome of a Python call expression: either the call raised, or it
returned a value.  Calling a generator function never raises: none of the
body runs until the first element is requested. -/
inductive PyCall (α : Type) where
  | raised (e : Exc)
  | returned (v : α)
deriving DecidableEq

def PyCall.raisedB : PyCall α → Bool
  | .raised _ => true
  | .returned _ => false

/-- The cleanup loop `for col in copy(columns): if group[col].ndim > 2:
columns.remove(col)` (io.py lines 132-135): drop every column of rank > 2
(with a warning); a missing column name raises `KeyError` here, at
`group[col]`, before any chunk is produced. -/
def filterCols (group : HGroup) : List String → Except Exc (List String)
  | [] => .ok []
  | col :: rest =>
    match lookupA group col with
    | none => .error (.keyError col)
    | some ds =>
      match filterCols group rest with
      | .error e => .error e
      | .ok more => .ok (if ds.ndim > 2 then more else col :: more)

/-- The per-column body of the chunk loop (io.py lines 144-152): slice
`group[col][start:end]`, normalize byte order, then one column for rank 1 and
otherwise `array.shape[1]` columns `col_0 … col_{shape[1]-1}`. -/
def chunkBlock (host : Endian) (start stop : Nat) (col : String) (ds : NArr) :
    List (String × NArr) :=
  let array := to_native_byteorder host (ds.slice0 start stop)
  if array.ndim = 1 then [(col, array)]
  else
    (List.range (array.shape.tail.headD 0)).map
      (fun i => (col ++ "_" ++ toString i, array.colExtract i))

/-- The chunk loop's inner column loop: `chunkBlock` per column, in order. -/
def chunk_cols (host : Endian) (group : HGroup) (start stop : Nat) :
    List String → Except Exc (List (String × NArr))
  | [] => .ok []
  | col :: rest =>
    match lookupA group col with
    | none => .error (.keyError col)
    | some ds =>
      match chunk_cols host group start stop rest with
      | .error e => .error e
      | .ok more => .ok (chunkBlock host start stop col ds ++ more)

/-- The chunk loop `for chunk in range(n_chunks)` (io.py lines 137-154):
`start = chunk * chunksize`, `end = min(n_events, (chunk + 1) * chunksize)`,
build a frame indexed by `np.arange(start, end)` and yield
`(df, start, end)`. -/
def chunkLoop (host : Endian) (group : HGroup) (cols : List String)
    (chunksize n_events : Nat) : List Nat → GenRun (Table × Nat × Nat)
  | [] => ⟨[], none⟩
  | i :: rest =>
    let start := i * chunksize
    let stop := min n_events ((i + 1) * chunksize)
    match chunk_cols host group start stop cols with
    | .error e => ⟨[], some e⟩
    | .ok pairs =>
      let df : Table := ⟨rangeList start stop, pairs⟩
      let r := chunkLoop host group cols chunksize n_events rest
      ⟨(df, start, stop) :: r.yielded, r.err⟩

/-- The body of the generator `read_h5py_chunked(file_path, key='events',
columns=None, chunksize=None)` (io.py lines 107-154), run to completion: open
`'r+'`, check the group, resolve default columns, get `n_events` (re-opening
the file), compute `n_chunks = 1` when `chunksize is None` (then
`chunksize = n_events`) and `int(np.ceil(n_events / chunksize))` otherwise
(exact ceiling for `chunksize ≥ 1`; `chunksize = 0` raises in Python and is
outside this model), drop rank > 2 columns, then yield the chunks. -/
def read_h5py_chunked_run (host : Endian) (env : Env) (file_path key : String)
    (columns : Option (List String)) (chunksize : Option Nat) :
    GenRun (Table × Nat × Nat) :=
  match h5pyOpen env file_path "r+" with
  | .error e => ⟨[], some e⟩
  | .ok f =>
    match lookupA f key with
    | none => ⟨[], some (.ioError (missingGroupMsg key))⟩
    | some group =>
      let cols0 := match columns with
        | none => defaultColumns group
        | some cs => cs
      match h5py_get_n_events env file_path key with
      | .error e => ⟨[], some e⟩
      | .ok n_events =>
        let nc := match chunksize with
          | none => (1, n_events)
          | some c => ((n_events + c - 1) / c, c)
        match filterCols group cols0 with
        | .error e => ⟨[], some e⟩
        | .ok cols => chunkLoop host group cols nc.2 n_events (List.range nc.1)

/-- The call expression `read_h5py_chunked(...)`: the source function is a
generator (its body contains `yield`), so the call itself executes none of
the body and always returns the generator; all body effects, including the
missing-group check, happen on iteration (`read_h5py_chunked_run`). -/
def read_h5py_chunked (host : Endian) (env : Env) (file_path key : String)
    (columns : Option (List String)) (chunksize : Option Nat) :
    PyCall (GenRun (Table × Nat × Nat)) :=
  .returned (read_h5py_chunked_run host env file_path key columns chunksize)

/-- Index of the last occurrence of a character, Python `str.rfind`. -/
def rfindIdx (cs : List Char) (c : Char) : Option Nat :=
  (cs.reverse.findIdx? (· == c)).map (fun i => cs.length - 1 - i)

/-- `os.path.splitext` (posixpath): split off the extension at the last dot
of the final path component, unless every character between the last `'/'`
and that dot is itself a dot (leading dots do not start an extension). -/
def splitext (p : String) : String × String :=
  let cs := p.toList
  let sepIdx : Int := match rfindIdx cs '/' with
    | none => -1
    | some i => (i : Int)
  let dotIdx : Int := match rfindIdx cs '.' with
    | none => -1
    | some i => (i : Int)
  if dotIdx > sepIdx then
    let between := ((cs.drop (sepIdx + 1).toNat).take (dotIdx - sepIdx - 1).toNat)
    if between.any (fun ch => ch != '.') then
      (String.mk (cs.take dotIdx.toNat), String.mk (cs.drop dotIdx.toNat))
    else (p, "")
  else (p, "")

/-- Python `key or default` on an optional string: `None` and the empty
string are falsy. -/
def keyOr (key : Option String) (dflt : String) : String :=
  match key with
  | none => dflt
  | some k => if k = "" then dflt else k

/-- `read_pandas_hdf5(file_path, key=None, columns=None, chunksize=None)`
(io.py lines 157-159): delegate to the external `pd.read_hdf` table codec
(the `pandas` oracle of `Env`); `read_data` never sets `chunksize`. -/
def read_pandas_hdf5 (env : Env) (file_path : String) (key : Option String)
    (columns : Option (List String)) : Except Exc Table :=
  env.pandas file_path key columns

/-- `read_data(file_path, key=None, columns=None)` (io.py lines 162-189):
dispatch on the extension; for the hdf5 family try `read_pandas_hdf5` with
`key or 'table'` and fall back to `read_h5py` with `key or 'events'` exactly
on `TypeError`/`ValueError`; `.json` and `.jsonl`/`.jsonlines` go to the
external text decoders; anything else raises `NotImplementedError`. -/
def read_data (host : Endian) (env : Env) (file_path : String)
    (key : Option String) (columns : Option (List String)) : Except Exc Table :=
  let ext := (splitext file_path).2
  if ext = ".hdf" ∨ ext = ".hdf5" ∨ ext = ".h5" then
    match read_pandas_hdf5 env file_path (some (keyOr key "table")) columns with
    | .ok df => .ok df
    | .error e =>
      if e = .typeError ∨ e = .valueError then
        read_h5py host env file_path (keyOr key "events") columns
      else .error e
  else if ext = ".json" then env.jsonRead file_path
  else if ext = ".jsonl" ∨ ext = ".jsonlines" then env.jsonlRead file_path
  else .error (.notImplementedError ("Unknown data file extension " ++ ext))

/-- `allowed_extensions` (io.py line 23). -/
def allowed_extensions : List String :=
  [".hdf", ".hdf5", ".h5", ".json", ".jsonl", ".jsonlines", ".csv"]

/-- Python `repr` of one of the extension literals. -/
def pyRepr (s : String) : String := "'" ++ s ++ "'"

/-- `'{}'.format(tup)` for a tuple of strings: Python tuple repr. -/
def formatTuple (xs : List String) : String :=
  match xs with
  | [x] => "(" ++ pyRepr x ++ ",)"
  | _ => "(" ++ String.intercalate ", " (xs.map pyRepr) ++ ")"

/-- `write_data(df, file_path, key='table')` (io.py lines 27-48): dispatch on
the extension to the external encoders (their effects are out of scope for
this layer, so a recognized extension yields `ok`); an unrecognized extension
raises `IOError` naming the extension and the allowed set.  Note the write
dispatch accepts `.jsonline`, not `.jsonlines`. -/
def write_data (df : Table) (file_path key : String) : Except Exc Unit :=
  let ext := (splitext file_path).2
  if ext = ".hdf" ∨ ext = ".hdf5" ∨ ext = ".h5" then .ok ()
  else if ext = ".json" then .ok ()
  else if ext = ".jsonl" ∨ ext = ".jsonline" then .ok ()
  else if ext = ".csv" then .ok ()
  else
    .error (.ioError ("cannot write tabular data with format " ++ ext ++
      ". Allowed formats: " ++ formatTuple allowed_extensions))

/-- `check_extension(file_path, allowed_extensions=allowed_extensions)`
(io.py lines 192-195); the second parameter is named `allowed_extensions` in
the source, defaulting to the module constant.  The error message is
`'Allowed formats: {}'.format(allowed_extensions)` — it names the allowed
set only. -/
def check_extension (file_path : String)
    (allowed : List String := allowed_extensions) : Except Exc Unit :=
  let ext := (splitext file_path).2
  if ext ∈ allowed then .ok ()
  else .error (.ioError ("Allowed formats: " ++ formatTuple allowed))

/-- Substring test on strings (used to state that an error message mentions
the offending key or extension). -/
def strContains (s sub : String) : Bool :=
  decide (List.IsInfix sub.toList s.toList)

/-- The dtype `to_native_byteorder` produces (a function of the input dtype
alone). -/
def tnD (host : Endian) (d : Dtype) : Dtype :=
  if d.byteorder ≠ .eq ∧ d.byteorder ≠ native_byteorder host then
    ⟨swapByteOrder host d.byteorder, d.itemsize⟩
  else d

/-- The per-element byte transformation of `to_native_byteorder` (a function
of the input dtype alone). -/
def tnE (host : Endian) (d : Dtype) : List Nat → List Nat :=
  if d.byteorder ≠ .eq ∧ d.byteorder ≠ native_byteorder host then List.reverse else id

/-- A column name survives the chunked reader's rank filter. -/
def keepCol (group : HGroup) (col : String) : Bool :=
  (lookupA group col).elim false (fun ds => ds.ndim ≤ 2)

/-- All columns the unchunked read contributes for a list of names. -/
def groupBlocks (host : Endian) (group : HGroup) (cols : List String) : List (String × NArr) :=
  cols.flatMap (fun c => (lookupA group c).elim [] (h5Block host c))

/-- All columns one chunk contributes for a list of names. -/
def chunkBlocks (host : Endian) (group : HGroup) (s e : Nat) (cols : List String) :
    List (String × NArr) :=
  cols.flatMap (fun c => (lookupA group c).elim [] (chunkBlock host s e c))

/-- The frame one chunk yields: global index `[s, e)` plus the chunk columns. -/
def chunkTable (host : Endian) (group : HGroup) (cols : List String) (s e : Nat) : Table :=
  ⟨rangeList s e, chunkBlocks host group s e cols⟩

/-- A single byte as a one-byte element. -/
def oneByte (v : Nat) : List Nat := [v]

/-- The spec's end-to-end scenario datasets: `energy`, rank 1 with 10 rows. -/
def energyDS : NArr := ⟨[10], ⟨.eq, 1⟩, (List.range 10).map oneByte⟩

/-- The spec's end-to-end scenario datasets: `position`, rank 2 of shape 10×2. -/
def positionDS : NArr := ⟨[10, 2], ⟨.eq, 1⟩, (List.range 20).map (fun i => oneByte (100 + i))⟩

/-- A raw container holding the scenario group `events`. -/
def scenarioFile : HFile := [("events", [("energy", energyDS), ("position", positionDS)])]

/-- External oracles that are never consulted by the raw-container claims. -/
def noPandas : String → Option String → Option (List String) → Except Exc Table :=
  fun _ _ _ => .error .valueError

def noJson : String → Except Exc Table := fun _ => .error .valueError

/-- The world for the end-to-end scenario: one writable file `events.h5`. -/
def scenarioEnv : Env :=
  { files := fun p => if p = "events.h5" then some ⟨scenarioFile, true⟩ else none
    pandas := noPandas
    jsonRead := noJson
    jsonlRead := noJson }

/-- A minimal world: `tiny.h5` holds a group `events` with a single rank-1
dataset `energy` of 3 rows. -/
def tinyEnv : Env :=
  { files := fun p =>
      if p = "tiny.h5" then
        some ⟨[("events", [("energy", ⟨[3], ⟨.eq, 1⟩, [[1], [2], [3]]⟩)])], true⟩
      else none
    pandas := noPandas
    jsonRead := noJson
    jsonlRead := noJson }

/-- A world with one existing file the caller cannot write: `locked.h5`. -/
def lockedEnv : Env :=
  { files := fun p =>
      if p = "locked.h5" then
        some ⟨[("events", [("energy", ⟨[3], ⟨.eq, 1⟩, [[1], [2], [3]]⟩)])], false⟩
      else none
    pandas := noPandas
    jsonRead := noJson
    jsonlRead := noJson }

/-- A world exercising `read_data`'s dispatch: the pandas codec succeeds on
`ok.h5`, raises `TypeError` on `typ.h5` (whose file is readable via h5py),
and raises `KeyError` on `oth.h5`. -/
def dispatchEnv : Env :=
  { files := fun p =>
      if p = "typ.h5" then
        some ⟨[("events", [("energy", ⟨[3], ⟨.eq, 1⟩, [[7], [8], [9]]⟩)])], true⟩
      else none
    pandas := fun p _ _ =>
      if p = "ok.h5" then .ok ⟨[0], [("a", ⟨[1], ⟨.eq, 1⟩, [[1]]⟩)]⟩
      else if p = "typ.h5" then .error .typeError
      else .error (.keyError "table")
    jsonRead := noJson
    jsonlRead := noJson }

theorem to_native_eq (host : Endian) (a : NArr) :
    to_native_byteorder host a = ⟨a.shape, tnD host a.dtype, a.data.map (tnE host a.dtype)⟩ := by
  unfold to_native_byteorder tnD tnE
  by_cases h : a.dtype.byteorder ≠ .eq ∧ a.dtype.byteorder ≠ native_byteorder host
  · rw [if_pos h, if_pos h, if_pos h]
    rfl
  · rw [if_neg h, if_neg h, if_neg h]
    simp

theorem reverse_eq_self_of_short {l : List Nat} (h : l.length ≤ 1) : l.reverse = l := by
  match l with
  | [] => rfl
  | [x] => rfl
  | x :: y :: rest => simp at h

theorem tn_elem_value (host : Endian) (d : Dtype) (b : List Nat)
    (hb : d.byteorder = .na → b.length ≤ 1) :
    NArr.elemVal host (tnD host d).byteorder (tnE host d b) = NArr.elemVal host d.byteorder b := by
  rcases d with ⟨bo, isz⟩
  cases bo <;> cases host <;>
    simp [tnD, tnE, NArr.elemVal, native_byteorder, swapByteOrder]
  · exact congrArg NArr.leVal (reverse_eq_self_of_short (hb rfl))
  · exact congrArg NArr.leVal (reverse_eq_self_of_short (hb rfl))

theorem tn_values (host : Endian) (a : NArr)
    (hb : a.dtype.byteorder = .na → ∀ b ∈ a.data, b.length ≤ 1) :
    NArr.values host (to_native_byteorder host a) = NArr.values host a := by
  rw [to_native_eq]
  unfold NArr.values
  rw [List.map_map]
  exact List.map_congr_left (fun b hmem =>
    tn_elem_value host a.dtype b (fun hna => hb hna b hmem))

theorem tn_noop (host : Endian) (a : NArr)
    (h : a.dtype.byteorder = .eq ∨ a.dtype.byteorder = native_byteorder host) :
    to_native_byteorder host a = a := by
  unfold to_native_byteorder
  rw [if_neg]
  rcases h with h | h <;> simp [h]

theorem tn_na_eq_self (host : Endian) (a : NArr) (hna : a.dtype.byteorder = .na)
    (hb : ∀ b ∈ a.data, b.length ≤ 1) : to_native_byteorder host a = a := by
  rw [to_native_eq]
  rcases a with ⟨sh, ⟨bo, isz⟩, data⟩
  simp only at hna
  subst hna
  have h1 : List.map List.reverse data = data := by
    have h2 : List.map List.reverse data = List.map id data :=
      List.map_congr_left (fun b hmem => reverse_eq_self_of_short (hb b hmem))
    rw [h2, List.map_id]
  cases host <;>
    simp only [tnD, tnE, native_byteorder, swapByteOrder, reduceCtorEq, ne_eq,
      not_false_iff, and_self, if_true, NArr.mk.injEq, true_and] <;>
    exact h1

/-- C7: byte-order normalization is total, idempotent (the second application
returns an array equal to the first application's result), and
value-preserving: the logical values of the normalized array equal those of
the input. -/
theorem to_native_byteorder_idem_values (host : Endian) (a : NArr) (hwf : a.wf) :
    to_native_byteorder host (to_native_byteorder host a) = to_native_byteorder host a ∧
    NArr.values host (to_native_byteorder host a) = NArr.values host a := by
  obtain ⟨hlen, hbytes, hna⟩ := hwf
  have hshort : a.dtype.byteorder = .na → ∀ b ∈ a.data, b.length ≤ 1 := fun h b hm =>
    le_of_eq (by rw [hbytes b hm, hna h])
  refine ⟨?_, tn_values host a hshort⟩
  by_cases hcond : a.dtype.byteorder ≠ .eq ∧ a.dtype.byteorder ≠ native_byteorder host
  · cases hbo : a.dtype.byteorder with
    | eq => exact absurd hbo hcond.1
    | na =>
      rw [tn_na_eq_self host a hbo (hshort hbo)]
      exact tn_na_eq_self host a hbo (hshort hbo)
    | lt =>
      cases host with
      | little => exact absurd hbo hcond.2
      | big =>
        have hd : (to_native_byteorder .big a).dtype.byteorder = .gt := by
          rw [to_native_eq]
          show (tnD .big a.dtype).byteorder = .gt
          unfold tnD
          rw [if_pos hcond]
          show swapByteOrder .big a.dtype.byteorder = .gt
          rw [hbo]
          rfl
        exact tn_noop .big _ (Or.inr (by rw [hd]; rfl))
    | gt =>
      cases host with
      | big => exact absurd hbo hcond.2
      | little =>
        have hd : (to_native_byteorder .little a).dtype.byteorder = .lt := by
          rw [to_native_eq]
          show (tnD .little a.dtype).byteorder = .lt
          unfold tnD
          rw [if_pos hcond]
          show swapByteOrder .little a.dtype.byteorder = .lt
          rw [hbo]
          rfl
        exact tn_noop .little _ (Or.inr (by rw [hd]; rfl))
  · have h2 : a.dtype.byteorder = .eq ∨ a.dtype.byteorder = native_byteorder host := by
      rcases not_and_or.mp hcond with h | h
      · exact Or.inl (not_not.mp h)
      · exact Or.inr (not_not.mp h)
    rw [tn_noop host a h2]
    exact tn_noop host a h2

/-- C7 witness: a concrete big-endian two-byte array. -/
theorem to_native_byteorder_idem_values_witness :
    (⟨[2], ⟨.gt, 2⟩, [[1, 2], [3, 4]]⟩ : NArr).wf ∧
    (to_native_byteorder .little (to_native_byteorder .little ⟨[2], ⟨.gt, 2⟩, [[1, 2], [3, 4]]⟩) =
        to_native_byteorder .little ⟨[2], ⟨.gt, 2⟩, [[1, 2], [3, 4]]⟩ ∧
      NArr.values .little (to_native_byteorder .little ⟨[2], ⟨.gt, 2⟩, [[1, 2], [3, 4]]⟩) =
        NArr.values .little ⟨[2], ⟨.gt, 2⟩, [[1, 2], [3, 4]]⟩) :=
  ⟨by unfold NArr.wf; decide,
   to_native_byteorder_idem_values .little ⟨[2], ⟨.gt, 2⟩, [[1, 2], [3, 4]]⟩
     (by unfold NArr.wf; decide)⟩

/-- C6 counterexample: an array whose byte-order tag is `'|'` (not
applicable) — e.g. any int8 array — is NOT returned unchanged: the condition
`byteorder not in ('=', native_byteorder)` holds for `'|'`, so
`to_native_byteorder` takes the allocating `byteswap().newbyteorder()` branch
instead of returning the input itself. -/
theorem to_native_byteorder_na_copies :
    to_native_byteorder_returns_input .little ⟨[1], ⟨.na, 1⟩, [[5]]⟩ = false := by
  decide

/-- C6 (amended): only arrays already tagged host-native (`'='` or the
host's own order character) are returned unchanged with no copy; an array
tagged not-applicable (`'|'`) instead goes through the byteswap branch,
which allocates a copy but, for well-formed (single-byte) arrays, preserves
every value. -/
theorem to_native_byteorder_native_identity (host : Endian) (a : NArr) :
    (a.dtype.byteorder = .eq ∨ a.dtype.byteorder = native_byteorder host →
      to_native_byteorder_returns_input host a = true ∧ to_native_byteorder host a = a) ∧
    (a.dtype.byteorder = .na →
      to_native_byteorder_returns_input host a = false ∧
      (a.wf → NArr.values host (to_native_byteorder host a) = NArr.values host a)) := by
  constructor
  · intro h
    refine ⟨?_, tn_noop host a h⟩
    unfold to_native_byteorder_returns_input
    rcases h with h | h <;> simp [h]
  · intro h
    constructor
    · unfold to_native_byteorder_returns_input
      rw [h]
      cases host <;> rfl
    · intro hwf
      exact (to_native_byteorder_idem_values host a hwf).2

/-- C6 witness: a host-native little-endian array is returned unchanged, and
the not-applicable branch of the amended statement applies to an int8-style
array. -/
theorem to_native_byteorder_native_identity_witness :
    (to_native_byteorder_returns_input .little ⟨[2], ⟨.lt, 2⟩, [[1, 2], [3, 4]]⟩ = true ∧
      to_native_byteorder .little ⟨[2], ⟨.lt, 2⟩, [[1, 2], [3, 4]]⟩ =
        ⟨[2], ⟨.lt, 2⟩, [[1, 2], [3, 4]]⟩) ∧
    (to_native_byteorder_returns_input .little ⟨[1], ⟨.na, 1⟩, [[7]]⟩ = false ∧
      NArr.values .little (to_native_byteorder .little ⟨[1], ⟨.na, 1⟩, [[7]]⟩) =
        NArr.values .little ⟨[1], ⟨.na, 1⟩, [[7]]⟩) :=
  ⟨(to_native_byteorder_native_identity .little ⟨[2], ⟨.lt, 2⟩, [[1, 2], [3, 4]]⟩).1 (Or.inr rfl),
   ((to_native_byteorder_native_identity .little ⟨[1], ⟨.na, 1⟩, [[7]]⟩).2 rfl).1,
   ((to_native_byteorder_native_identity .little ⟨[1], ⟨.na, 1⟩, [[7]]⟩).2 rfl).2
     (by unfold NArr.wf; decide)⟩

theorem chunkLoop_index (host : Endian) (group : HGroup) (cols : List String)
    (cz n : Nat) : ∀ (idxs : List Nat) (t : Table) (s e : Nat),
    (t, s, e) ∈ (chunkLoop host group cols cz n idxs).yielded → t.index = rangeList s e := by
  intro idxs
  induction idxs with
  | nil => intro t s e h; simp [chunkLoop] at h
  | cons i rest ih =>
    intro t s e h
    cases hc : chunk_cols host group (i * cz) (min n ((i + 1) * cz)) cols with
    | error exc => simp only [chunkLoop, hc] at h; simp at h
    | ok pairs =>
      simp only [chunkLoop, hc, List.mem_cons] at h
      rcases h with h | h
      · simp only [Prod.mk.injEq] at h
        obtain ⟨ht, hs, he⟩ := h
        rw [ht, hs, he]
      · exact ih t s e h

theorem read_h5py_chunked_run_shape (host : Endian) (env : Env) (file_path key : String)
    (columns : Option (List String)) (chunksize : Option Nat) :
    (∃ exc, read_h5py_chunked_run host env file_path key columns chunksize =
      ⟨[], some exc⟩) ∨
    (∃ g cs cz n idxs, read_h5py_chunked_run host env file_path key columns chunksize =
      chunkLoop host g cs cz n idxs) := by
  unfold read_h5py_chunked_run
  repeat' split
  all_goals try dsimp only
  all_goals repeat' split
  all_goals first
    | exact Or.inl ⟨_, rfl⟩
    | exact Or.inr ⟨_, _, _, _, _, rfl⟩

/-- C2: every chunk `(table, start, end)` yielded by the chunked reader has
as its row index exactly the global positions `start..end-1`
(`np.arange(start, end)`), not chunk-local positions. -/
theorem read_h5py_chunked_global_index (host : Endian) (env : Env)
    (file_path key : String) (columns : Option (List String)) (chunksize : Option Nat)
    (t : Table) (s e : Nat)
    (h : (t, s, e) ∈ (read_h5py_chunked_run host env file_path key columns chunksize).yielded) :
    t.index = rangeList s e := by
  rcases read_h5py_chunked_run_shape host env file_path key columns chunksize with
    ⟨exc, hrun⟩ | ⟨g, cs, cz, n, idxs, hrun⟩
  · rw [hrun] at h
    simp at h
  · rw [hrun] at h
    exact chunkLoop_index host g cs cz n idxs t s e h

/-- C2 witness: the first chunk of the 3-row tiny file read with chunk size
2 carries the global index `[0, 1]`. -/
theorem read_h5py_chunked_global_index_witness :
    (⟨rangeList 0 2, [("energy", ⟨[2], ⟨.eq, 1⟩, [[1], [2]]⟩)]⟩, 0, 2) ∈
      (read_h5py_chunked_run .little tinyEnv "tiny.h5" "events" none (some 2)).yielded ∧
    (⟨rangeList 0 2, [("energy", ⟨[2], ⟨.eq, 1⟩, [[1], [2]]⟩)]⟩ : Table).index = rangeList 0 2 :=
  ⟨by decide,
   read_h5py_chunked_global_index .little tinyEnv "tiny.h5" "events" none (some 2)
     ⟨rangeList 0 2, [("energy", ⟨[2], ⟨.eq, 1⟩, [[1], [2]]⟩)]⟩ 0 2 (by decide)⟩

/-- C3 counterexample: `tiny.h5` exists but group `nope` is absent; the call
`read_h5py_chunked(...)` itself raises nothing — it returns the generator —
and the NotFound IOError appears only in the generator's run, i.e. when the
first element is requested.  The claim that the error is raised eagerly at
the call is therefore false. -/
theorem read_h5py_chunked_call_not_eager :
    (read_h5py_chunked .little tinyEnv "tiny.h5" "nope" none none).raisedB = false ∧
    (read_h5py_chunked_run .little tinyEnv "tiny.h5" "nope" none none).yielded = [] ∧
    (read_h5py_chunked_run .little tinyEnv "tiny.h5" "nope" none none).err =
      some (.ioError "File does not contain group \"nope\"") := by
  decide

/-- C3 (amended): `read_h5py_chunked` is a generator function, so the call
itself never raises; for an absent group the NotFound IOError is raised when
the first element is requested, before any chunk has been yielded. -/
theorem read_h5py_chunked_missing_group_lazy (host : Endian) (env : Env)
    (file_path key : String) (columns : Option (List String)) (chunksize : Option Nat)
    (entry : HEntry) (hfile : env.files file_path = some entry) (hw : entry.writable = true)
    (hkey : lookupA entry.content key = none) :
    (read_h5py_chunked host env file_path key columns chunksize).raisedB = false ∧
    read_h5py_chunked_run host env file_path key columns chunksize =
      ⟨[], some (.ioError (missingGroupMsg key))⟩ := by
  refine ⟨rfl, ?_⟩
  unfold read_h5py_chunked_run h5pyOpen
  rw [hfile]
  simp [hw, hkey]

/-- C3 witness: the amended statement at the tiny file and the absent group
`nomatch`. -/
theorem read_h5py_chunked_missing_group_lazy_witness :
    (read_h5py_chunked .little tinyEnv "tiny.h5" "nomatch" none none).raisedB = false ∧
    read_h5py_chunked_run .little tinyEnv "tiny.h5" "nomatch" none none =
      ⟨[], some (.ioError (missingGroupMsg "nomatch"))⟩ :=
  read_h5py_chunked_missing_group_lazy .little tinyEnv "tiny.h5" "nomatch" none none
    ⟨[("events", [("energy", ⟨[3], ⟨.eq, 1⟩, [[1], [2], [3]]⟩)])], true⟩
    (by decide) rfl (by decide)

/-- C10: all three raw-container readers open the file with h5py mode
`'r+'` (read-write), so on an existing file the caller cannot write they all
fail at open with a permission error, although they never modify the file. -/
theorem h5py_readers_open_rplus (host : Endian) (env : Env) (file_path key : String)
    (columns : Option (List String)) (chunksize : Option Nat) (entry : HEntry)
    (hfile : env.files file_path = some entry) (hro : entry.writable = false) :
    read_h5py host env file_path key columns = .error (.permissionError file_path) ∧
    h5py_get_n_events env file_path key = .error (.permissionError file_path) ∧
    read_h5py_chunked_run host env file_path key columns chunksize =
      ⟨[], some (.permissionError file_path)⟩ := by
  have hopen : h5pyOpen env file_path "r+" = .error (.permissionError file_path) := by
    unfold h5pyOpen
    rw [hfile]
    simp [hro]
  refine ⟨?_, ?_, ?_⟩
  · unfold read_h5py
    rw [hopen]
  · unfold h5py_get_n_events
    rw [hopen]
  · unfold read_h5py_chunked_run
    rw [hopen]

/-- C10 witness: on the read-only `locked.h5` every reader fails at open. -/
theorem h5py_readers_open_rplus_witness :
    read_h5py .little lockedEnv "locked.h5" "events" none =
      .error (.permissionError "locked.h5") ∧
    h5py_get_n_events lockedEnv "locked.h5" "events" =
      .error (.permissionError "locked.h5") ∧
    read_h5py_chunked_run .little lockedEnv "locked.h5" "events" none none =
      ⟨[], some (.permissionError "locked.h5")⟩ :=
  h5py_readers_open_rplus .little lockedEnv "locked.h5" "events" none none
    ⟨[("events", [("energy", ⟨[3], ⟨.eq, 1⟩, [[1], [2], [3]]⟩)])], false⟩
    (by decide) rfl

/-- C8: for paths in the hdf5 family `read_data` first consults the pandas
table codec with `key or 'table'`; a success is returned as-is; exactly
`TypeError`/`ValueError` failures trigger the fallback to `read_h5py` with
`key or 'events'`; every other failure propagates unmodified. -/
theorem read_data_hdf5_fallback (host : Endian) (env : Env) (p : String)
    (key : Option String) (columns : Option (List String))
    (hext : (splitext p).2 = ".hdf" ∨ (splitext p).2 = ".hdf5" ∨ (splitext p).2 = ".h5") :
    (∀ df, env.pandas p (some (keyOr key "table")) columns = .ok df →
      read_data host env p key columns = .ok df) ∧
    (∀ exc, env.pandas p (some (keyOr key "table")) columns = .error exc →
      (exc = .typeError ∨ exc = .valueError) →
      read_data host env p key columns =
        read_h5py host env p (keyOr key "events") columns) ∧
    (∀ exc, env.pandas p (some (keyOr key "table")) columns = .error exc →
      exc ≠ .typeError → exc ≠ .valueError →
      read_data host env p key columns = .error exc) := by
  refine ⟨?_, ?_, ?_⟩
  · intro df hp
    unfold read_data read_pandas_hdf5
    rw [if_pos hext, hp]
  · intro exc hp he
    unfold read_data read_pandas_hdf5
    rw [if_pos hext, hp]
    rcases he with he | he <;> simp [he]
  · intro exc hp h1 h2
    unfold read_data read_pandas_hdf5
    rw [if_pos hext, hp]
    simp [h1, h2]

/-- C8 witness: against `dispatchEnv`, `ok.h5` returns the pandas table,
`typ.h5` (pandas raises TypeError) falls back to `read_h5py`, and `oth.h5`
(pandas raises KeyError) propagates that error. -/
theorem read_data_hdf5_fallback_witness :
    read_data .little dispatchEnv "ok.h5" none none =
      .ok ⟨[0], [("a", ⟨[1], ⟨.eq, 1⟩, [[1]]⟩)]⟩ ∧
    read_data .little dispatchEnv "typ.h5" none none =
      read_h5py .little dispatchEnv "typ.h5" (keyOr none "events") none ∧
    read_data .little dispatchEnv "oth.h5" none none = .error (.keyError "table") :=
  ⟨(read_data_hdf5_fallback .little dispatchEnv "ok.h5" none none
      (by decide)).1 _ (by decide),
   (read_data_hdf5_fallback .little dispatchEnv "typ.h5" none none
      (by decide)).2.1 .typeError (by decide) (Or.inl rfl),
   (read_data_hdf5_fallback .little dispatchEnv "oth.h5" none none
      (by decide)).2.2 (.keyError "table") (by decide) (by decide) (by decide)⟩

theorem strContains_of_parts (s mid : String)
    (h : ∃ l r : List Char, s.toList = l ++ mid.toList ++ r) : strContains s mid = true := by
  unfold strContains
  rw [decide_eq_true_eq]
  obtain ⟨l, r, hs⟩ := h
  exact ⟨l, r, hs.symm⟩

/-- C9 counterexample: `check_extension('foo.xyz')` raises
`IOError('Allowed formats: (...)')` — the message names the allowed set but
does NOT contain the offending extension `.xyz`, so not every error raised
by the public operations identifies the offending path, key or extension. -/
theorem check_extension_message_no_extension :
    check_extension "foo.xyz" allowed_extensions =
      .error (.ioError
        "Allowed formats: ('.hdf', '.hdf5', '.h5', '.json', '.jsonl', '.jsonlines', '.csv')") ∧
    strContains
      "Allowed formats: ('.hdf', '.hdf5', '.h5', '.json', '.jsonl', '.jsonlines', '.csv')"
      ".xyz" = false := by
  decide

/-- C9 (amended): every error io.py raises identifies the offending key or
extension in its message — `write_data` and `read_data` name the extension
(write also names the allowed set) and the missing-group IOError of the raw
readers names the group key — with the single exception of
`check_extension`, whose message states only the allowed set and omits the
offending extension. -/
theorem io_error_messages_identify (host : Endian) (env : Env) :
    (∀ p, (splitext p).2 ∉ allowed_extensions →
      check_extension p allowed_extensions =
        .error (.ioError ("Allowed formats: " ++ formatTuple allowed_extensions))) ∧
    (strContains ("Allowed formats: " ++ formatTuple allowed_extensions)
      (formatTuple allowed_extensions) = true) ∧
    (∀ df p key, ¬((splitext p).2 = ".hdf" ∨ (splitext p).2 = ".hdf5" ∨
        (splitext p).2 = ".h5" ∨ (splitext p).2 = ".json" ∨ (splitext p).2 = ".jsonl" ∨
        (splitext p).2 = ".jsonline" ∨ (splitext p).2 = ".csv") →
      write_data df p key = .error (.ioError ("cannot write tabular data with format " ++
        (splitext p).2 ++ ". Allowed formats: " ++ formatTuple allowed_extensions)) ∧
      strContains ("cannot write tabular data with format " ++ (splitext p).2 ++
        ". Allowed formats: " ++ formatTuple allowed_extensions) (splitext p).2 = true ∧
      strContains ("cannot write tabular data with format " ++ (splitext p).2 ++
        ". Allowed formats: " ++ formatTuple allowed_extensions)
        (formatTuple allowed_extensions) = true) ∧
    (∀ p key columns, ¬((splitext p).2 = ".hdf" ∨ (splitext p).2 = ".hdf5" ∨
        (splitext p).2 = ".h5" ∨ (splitext p).2 = ".json" ∨ (splitext p).2 = ".jsonl" ∨
        (splitext p).2 = ".jsonlines") →
      read_data host env p key columns =
        .error (.notImplementedError ("Unknown data file extension " ++ (splitext p).2)) ∧
      strContains ("Unknown data file extension " ++ (splitext p).2) (splitext p).2 = true) ∧
    (∀ key, strContains (missingGroupMsg key) key = true) ∧
    (∀ p key columns entry, env.files p = some entry → entry.writable = true →
      lookupA entry.content key = none →
      read_h5py host env p key columns = .error (.ioError (missingGroupMsg key))) := by
  refine ⟨?_, ?_, ?_, ?_, ?_, ?_⟩
  · intro p h
    unfold check_extension
    rw [if_neg h]
  · apply strContains_of_parts
    exact ⟨("Allowed formats: " : String).toList, [], by simp⟩
  · intro df p key h
    push_neg at h
    obtain ⟨h1, h2, h3, h4, h5, h6, h7⟩ := h
    refine ⟨?_, ?_, ?_⟩
    · unfold write_data
      simp [h1, h2, h3, h4, h5, h6, h7]
    · apply strContains_of_parts
      refine ⟨("cannot write tabular data with format " : String).toList,
        (". Allowed formats: " ++ formatTuple allowed_extensions).toList, by simp⟩
    · apply strContains_of_parts
      refine ⟨("cannot write tabular data with format " ++ (splitext p).2 ++
        ". Allowed formats: " : String).toList, [], by simp⟩
  · intro p key columns h
    push_neg at h
    obtain ⟨h1, h2, h3, h4, h5, h6⟩ := h
    refine ⟨?_, ?_⟩
    · unfold read_data
      simp [h1, h2, h3, h4, h5, h6]
    · apply strContains_of_parts
      exact ⟨("Unknown data file extension " : String).toList, [], by simp⟩
  · intro key
    apply strContains_of_parts
    exact ⟨("File does not contain group \"" : String).toList, ("\"" : String).toList,
      by simp [missingGroupMsg]⟩
  · intro p key columns entry hfile hw hkey
    unfold read_h5py h5pyOpen
    rw [hfile]
    simp [hw, hkey]

/-- C9 witness: the amended statement applied at concrete unsupported paths
and a concrete missing group. -/
theorem io_error_messages_identify_witness :
    check_extension "foo.abc" allowed_extensions =
      .error (.ioError ("Allowed formats: " ++ formatTuple allowed_extensions)) ∧
    (write_data ⟨[], []⟩ "foo.abc" "table" =
      .error (.ioError ("cannot write tabular data with format " ++ (splitext "foo.abc").2 ++
        ". Allowed formats: " ++ formatTuple allowed_extensions)) ∧
     strContains ("cannot write tabular data with format " ++ (splitext "foo.abc").2 ++
        ". Allowed formats: " ++ formatTuple allowed_extensions) (splitext "foo.abc").2 = true) ∧
    (read_data .little tinyEnv "foo.abc" none none =
      .error (.notImplementedError ("Unknown data file extension " ++ (splitext "foo.abc").2)) ∧
     strContains (missingGroupMsg "gone") "gone" = true) ∧
    read_h5py .little tinyEnv "tiny.h5" "gone" none =
      .error (.ioError (missingGroupMsg "gone")) :=
  ⟨(io_error_messages_identify .little tinyEnv).1 "foo.abc" (by decide),
   ⟨((io_error_messages_identify .little tinyEnv).2.2.1 ⟨[], []⟩ "foo.abc" "table"
       (by decide)).1,
    ((io_error_messages_identify .little tinyEnv).2.2.1 ⟨[], []⟩ "foo.abc" "table"
       (by decide)).2.1⟩,
   ⟨((io_error_messages_identify .little tinyEnv).2.2.2.1 "foo.abc" none none (by decide)).1,
    (io_error_messages_identify .little tinyEnv).2.2.2.2.1 "gone"⟩,
   (io_error_messages_identify .little tinyEnv).2.2.2.2.2 "tiny.h5" "gone" none
     ⟨[("events", [("energy", ⟨[3], ⟨.eq, 1⟩, [[1], [2], [3]]⟩)])], true⟩
     (by decide) rfl (by decide)⟩

/-- C4 counterexample: reading the scenario group (`energy` rank 1 with 10
rows, `position` rank 2 of shape 10×2) with `chunk_size=4` under the default
column resolution (columns omitted) yields the 3 stated ranges, but every
chunk contains only the column `energy`: the default set keeps rank-1
datasets only, so `position_0`/`position_1` never appear. -/
theorem scenario_default_columns_no_position :
    (read_h5py_chunked_run .little scenarioEnv "events.h5" "events" none (some 4)).yielded.map
        (fun c => (c.2.1, c.2.2)) = [(0, 4), (4, 8), (8, 10)] ∧
    (read_h5py_chunked_run .little scenarioEnv "events.h5" "events" none (some 4)).yielded.map
        (fun c => c.1.cols.map (fun pr => pr.1)) = [["energy"], ["energy"], ["energy"]] ∧
    ¬((read_h5py_chunked_run .little scenarioEnv "events.h5" "events" none (some 4)).yielded.map
        (fun c => c.1.cols.map (fun pr => pr.1)) =
      [["energy", "position_0", "position_1"], ["energy", "position_0", "position_1"],
        ["energy", "position_0", "position_1"]]) := by
  decide

/-- C4 (amended): the scenario holds once `position` is requested
explicitly: reading with `columns=['energy', 'position']` and `chunk_size=4`
yields exactly 3 chunks with ranges (0,4), (4,8), (8,10), each chunk's table
has columns `energy, position_0, position_1`, and the concatenation of the
chunks is a 10-row table equal to the unchunked read over the same columns. -/
theorem scenario_explicit_columns_chunks :
    (read_h5py_chunked_run .little scenarioEnv "events.h5" "events"
        (some ["energy", "position"]) (some 4)).err = none ∧
    (read_h5py_chunked_run .little scenarioEnv "events.h5" "events"
        (some ["energy", "position"]) (some 4)).yielded.map (fun c => (c.2.1, c.2.2)) =
      [(0, 4), (4, 8), (8, 10)] ∧
    (read_h5py_chunked_run .little scenarioEnv "events.h5" "events"
        (some ["energy", "position"]) (some 4)).yielded.map
        (fun c => c.1.cols.map (fun pr => pr.1)) =
      [["energy", "position_0", "position_1"], ["energy", "position_0", "position_1"],
        ["energy", "position_0", "position_1"]] ∧
    read_h5py .little scenarioEnv "events.h5" "events" (some ["energy", "position"]) =
      .ok (concatTables ((read_h5py_chunked_run .little scenarioEnv "events.h5" "events"
        (some ["energy", "position"]) (some 4)).yielded.map (fun c => c.1))) ∧
    (concatTables ((read_h5py_chunked_run .little scenarioEnv "events.h5" "events"
        (some ["energy", "position"]) (some 4)).yielded.map (fun c => c.1))).index =
      rangeList 0 10 := by
  decide

theorem lookupA_mem {α : Type} {l : List (String × α)} {k : String} {v : α}
    (h : lookupA l k = some v) : (k, v) ∈ l := by
  unfold lookupA at h
  cases hf : l.find? (fun p => p.1 == k) with
  | none => rw [hf] at h; simp at h
  | some pr =>
    rw [hf] at h
    have hmem := List.mem_of_find?_eq_some hf
    have hkey : pr.1 = k := by simpa using List.find?_some hf
    have hv : pr.2 = v := by
      simpa using h
    have hpr : (k, v) = pr := by
      rw [← hkey, ← hv]
    rw [hpr]
    exact hmem

theorem tn_shape (host : Endian) (a : NArr) :
    (to_native_byteorder host a).shape = a.shape := by rw [to_native_eq]

theorem tn_ndim (host : Endian) (a : NArr) :
    (to_native_byteorder host a).ndim = a.ndim := by
  unfold NArr.ndim
  rw [tn_shape]

theorem tn_dtype (host : Endian) (a : NArr) :
    (to_native_byteorder host a).dtype = tnD host a.dtype := by rw [to_native_eq]

theorem tn_data (host : Endian) (a : NArr) :
    (to_native_byteorder host a).data = a.data.map (tnE host a.dtype) := by rw [to_native_eq]

theorem tnE_nil (host : Endian) (d : Dtype) : tnE host d [] = [] := by
  unfold tnE
  split <;> rfl

theorem getD_map_nil (f : List Nat → List Nat) (hf : f [] = []) (l : List (List Nat)) (j : Nat) :
    (l.map f).getD j [] = f (l.getD j []) := by
  rw [List.getD_eq_getElem?_getD, List.getD_eq_getElem?_getD, List.getElem?_map]
  cases l[j]? with
  | none => simp [hf]
  | some x => simp

theorem zipWith_map_same {α β γ δ : Type} (f : β → γ → δ) (g : α → β) (h : α → γ)
    (l : List α) :
    List.zipWith f (l.map g) (l.map h) = l.map (fun x => f (g x) (h x)) := by
  induction l with
  | nil => rfl
  | cons x xs ih => simp [ih]

theorem slice0_append0 (a : NArr) {s m e : Nat} (h1 : s ≤ m) (h2 : m ≤ e) :
    (a.slice0 s m).append0 (a.slice0 m e) = a.slice0 s e := by
  set n := a.shape.headD 0 with hn
  set k := a.shape.tail.prod with hk
  have hsm : min s n ≤ min m n := min_le_min h1 (le_refl n)
  have hme : min m n ≤ min e n := min_le_min h2 (le_refl n)
  have hsh : min m n - min s n + (min e n - min m n) = min e n - min s n := by omega
  have harith : (min e n - min s n) * k = (min m n - min s n) * k + (min e n - min m n) * k := by
    rw [← Nat.add_mul, hsh]
  have hd2 : min s n * k + (min m n - min s n) * k = min m n * k := by
    rw [← Nat.add_mul]
    congr 1
    omega
  have hdata : ((a.data.drop (min s n * k)).take ((min m n - min s n) * k)) ++
      ((a.data.drop (min m n * k)).take ((min e n - min m n) * k)) =
      (a.data.drop (min s n * k)).take ((min e n - min s n) * k) := by
    rw [harith, List.take_add, List.drop_drop, hd2]
  unfold NArr.append0 NArr.slice0
  simp only [List.headD_cons, List.tail_cons, ← hn, ← hk]
  rw [hsh, hdata]

theorem slice0_full (a : NArr) (hne : a.shape ≠ []) (hlen : a.data.length = a.shape.prod) :
    a.slice0 0 (a.shape.headD 0) = a := by
  unfold NArr.slice0
  rcases a with ⟨sh, d, data⟩
  cases sh with
  | nil => simp at hne
  | cons n tail =>
    simp only [List.headD_cons, List.tail_cons, Nat.min_self, Nat.zero_min, Nat.zero_mul,
      List.drop_zero, Nat.sub_zero, NArr.mk.injEq, List.cons.injEq, true_and, and_true]
    apply List.take_of_length_le
    simp only [List.prod_cons] at hlen
    omega

theorem tn_slice0_comm (host : Endian) (a : NArr) (s e : Nat) :
    to_native_byteorder host (a.slice0 s e) = (to_native_byteorder host a).slice0 s e := by
  rw [to_native_eq, to_native_eq]
  unfold NArr.slice0
  simp [List.map_take, List.map_drop]

theorem tn_colExtract_comm (host : Endian) (a : NArr) (i : Nat) :
    to_native_byteorder host (a.colExtract i) = (to_native_byteorder host a).colExtract i := by
  rw [to_native_eq, to_native_eq]
  unfold NArr.colExtract
  simp only [NArr.mk.injEq, true_and, and_true, List.map_map]
  apply List.map_congr_left
  intro r hr
  simp only [Function.comp_apply]
  rw [getD_map_nil (tnE host a.dtype) (tnE_nil host a.dtype)]

theorem colExtract_slice0 (a : NArr) (n w i : Nat) (hsh : a.shape = [n, w]) (hi : i < w)
    (s e : Nat) :
    (a.slice0 s e).colExtract i = (a.colExtract i).slice0 s e := by
  rcases a with ⟨sh, d, data⟩
  simp only at hsh
  subst hsh
  unfold NArr.slice0 NArr.colExtract
  simp only [List.headD_cons, List.tail_cons, List.headD_nil, List.tail_nil, List.prod_cons,
    List.prod_nil, Nat.mul_one, Nat.one_mul, NArr.mk.injEq, List.cons.injEq, true_and, and_true]
  apply List.ext_getElem?
  intro j
  rw [List.getElem?_map]
  by_cases hj : j < min e n - min s n
  · have hjr : (List.range (min e n - min s n))[j]? = some j := by
      rw [List.getElem?_range hj]
    rw [hjr]
    have hlhs : (List.take ((min e n - min s n) * w) (List.drop (min s n * w) data)).getD
        (j * w + i) [] = data.getD ((min s n + j) * w + i) [] := by
      rw [List.getD_eq_getElem?_getD, List.getD_eq_getElem?_getD]
      have hb : j * w + i < (min e n - min s n) * w := by
        have h1 : j + 1 ≤ min e n - min s n := hj
        calc j * w + i < j * w + w := by omega
          _ = (j + 1) * w := by ring
          _ ≤ (min e n - min s n) * w := Nat.mul_le_mul_right w h1
      rw [List.getElem?_take]
      rw [if_pos hb]
      rw [List.getElem?_drop]
      congr 2
      ring
    have hrhs : (List.take (min e n - min s n) (List.drop (min s n)
        ((List.range n).map (fun r => data.getD (r * w + i) []))))[j]? =
        some (data.getD ((min s n + j) * w + i) []) := by
      rw [List.getElem?_take, if_pos hj, List.getElem?_drop, List.getElem?_map]
      have hjn : min s n + j < n := by
        have h2 : min e n ≤ n := Nat.min_le_right e n
        omega
      rw [List.getElem?_range hjn]
      rfl
    rw [hrhs]
    exact congrArg some hlhs
  · have hjr : (List.range (min e n - min s n))[j]? = none := by
      rw [List.getElem?_eq_none]
      simpa using Nat.le_of_not_lt hj
    rw [hjr]
    have hrhs : (List.take (min e n - min s n) (List.drop (min s n)
        ((List.range n).map (fun r => data.getD (r * w + i) []))))[j]? = none := by
      rw [List.getElem?_take, if_neg hj]
    rw [hrhs]
    rfl

theorem shape_cases (ds : NArr) (N : Nat) (hsh : ds.shape.head? = some N)
    (hnd : ds.ndim ≤ 2) : ds.shape = [N] ∨ ∃ w, ds.shape = [N, w] := by
  unfold NArr.ndim at hnd
  cases hshape : ds.shape with
  | nil => rw [hshape] at hsh; simp at hsh
  | cons h0 t =>
    rw [hshape] at hsh
    simp only [List.head?_cons, Option.some.injEq] at hsh
    subst hsh
    rw [hshape] at hnd
    cases t with
    | nil => exact Or.inl rfl
    | cons w t2 =>
      cases t2 with
      | nil => exact Or.inr ⟨w, rfl⟩
      | cons x t3 => simp at hnd

theorem chunkBlock_rank1 (host : Endian) (col : String) (ds : NArr) (N : Nat)
    (hsh : ds.shape = [N]) (s e : Nat) :
    chunkBlock host s e col ds = [(col, (to_native_byteorder host ds).slice0 s e)] := by
  unfold chunkBlock
  rw [tn_slice0_comm]
  have hnd : ((to_native_byteorder host ds).slice0 s e).ndim = 1 := by
    unfold NArr.ndim NArr.slice0
    simp [tn_shape, hsh]
  rw [if_pos hnd]

theorem chunkBlock_rank2 (host : Endian) (col : String) (ds : NArr) (N w : Nat)
    (hsh : ds.shape = [N, w]) (s e : Nat) :
    chunkBlock host s e col ds = (List.range w).map
      (fun i => (col ++ "_" ++ toString i,
        ((to_native_byteorder host ds).colExtract i).slice0 s e)) := by
  unfold chunkBlock
  rw [tn_slice0_comm]
  have hshtn : (to_native_byteorder host ds).shape = [N, w] := by rw [tn_shape, hsh]
  have hnd : ¬ ((to_native_byteorder host ds).slice0 s e).ndim = 1 := by
    unfold NArr.ndim NArr.slice0
    simp [hshtn]
  rw [if_neg hnd]
  have hw : ((to_native_byteorder host ds).slice0 s e).shape.tail.headD 0 = w := by
    unfold NArr.slice0
    simp [hshtn]
  rw [hw]
  apply List.map_congr_left
  intro i hi
  rw [colExtract_slice0 (to_native_byteorder host ds) N w i hshtn (List.mem_range.mp hi)]

theorem h5Block_rank1 (host : Endian) (col : String) (ds : NArr) (N : Nat)
    (hsh : ds.shape = [N]) :
    h5Block host col ds = [(col, to_native_byteorder host ds)] := by
  unfold h5Block
  have hnd : (to_native_byteorder host ds).ndim = 1 := by
    unfold NArr.ndim
    rw [tn_shape, hsh]
    rfl
  rw [if_pos hnd]

theorem h5Block_rank2 (host : Endian) (col : String) (ds : NArr) (N w : Nat)
    (hsh : ds.shape = [N, w]) :
    h5Block host col ds = (List.range w).map
      (fun i => (col ++ "_" ++ toString i, (to_native_byteorder host ds).colExtract i)) := by
  unfold h5Block
  have hshtn : (to_native_byteorder host ds).shape = [N, w] := by rw [tn_shape, hsh]
  have hnd1 : ¬ (to_native_byteorder host ds).ndim = 1 := by
    unfold NArr.ndim
    rw [hshtn]
    simp
  have hnd2 : (to_native_byteorder host ds).ndim = 2 := by
    unfold NArr.ndim
    rw [hshtn]
    rfl
  rw [if_neg hnd1, if_pos hnd2]
  have hw : (to_native_byteorder host ds).shape.tail.headD 0 = w := by rw [hshtn]; rfl
  rw [hw]

theorem h5Block_rank_high (host : Endian) (col : String) (ds : NArr)
    (hnd : 2 < ds.ndim) : h5Block host col ds = [] := by
  unfold h5Block
  have h1 : ¬ (to_native_byteorder host ds).ndim = 1 := by rw [tn_ndim]; omega
  have h2 : ¬ (to_native_byteorder host ds).ndim = 2 := by rw [tn_ndim]; omega
  rw [if_neg h1, if_neg h2]

theorem chunkBlock_full (host : Endian) (col : String) (ds : NArr) (N : Nat)
    (hsh : ds.shape.head? = some N) (hnd : ds.ndim ≤ 2)
    (hlen : ds.data.length = ds.shape.prod) :
    chunkBlock host 0 N col ds = h5Block host col ds := by
  have hwftn : (to_native_byteorder host ds).data.length =
      (to_native_byteorder host ds).shape.prod := by
    rw [tn_shape, tn_data, List.length_map, hlen]
  rcases shape_cases ds N hsh hnd with h | ⟨w, h⟩
  · rw [chunkBlock_rank1 host col ds N h, h5Block_rank1 host col ds N h]
    have hfull := slice0_full (to_native_byteorder host ds)
      (by rw [tn_shape, h]; simp) hwftn
    have hhd : (to_native_byteorder host ds).shape.headD 0 = N := by rw [tn_shape, h]; rfl
    rw [hhd] at hfull
    rw [hfull]
  · rw [chunkBlock_rank2 host col ds N w h, h5Block_rank2 host col ds N w h]
    apply List.map_congr_left
    intro i hi
    have hce : ((to_native_byteorder host ds).colExtract i).shape = [N] := by
      unfold NArr.colExtract
      rw [tn_shape, h]
      rfl
    have hcelen : ((to_native_byteorder host ds).colExtract i).data.length =
        ((to_native_byteorder host ds).colExtract i).shape.prod := by
      unfold NArr.colExtract
      rw [tn_shape, h]
      simp
    have hfull := slice0_full ((to_native_byteorder host ds).colExtract i)
      (by rw [hce]; simp) hcelen
    have hhd : ((to_native_byteorder host ds).colExtract i).shape.headD 0 = N := by
      rw [hce]; rfl
    rw [hhd] at hfull
    rw [hfull]

theorem chunkBlock_append (host : Endian) (col : String) (ds : NArr) (N : Nat)
    (hsh : ds.shape.head? = some N) (hnd : ds.ndim ≤ 2) {s m e : Nat}
    (h1 : s ≤ m) (h2 : m ≤ e) :
    List.zipWith (fun p q => (p.1, NArr.append0 p.2 q.2))
      (chunkBlock host s m col ds) (chunkBlock host m e col ds) =
    chunkBlock host s e col ds := by
  rcases shape_cases ds N hsh hnd with h | ⟨w, h⟩
  · rw [chunkBlock_rank1 host col ds N h, chunkBlock_rank1 host col ds N h,
      chunkBlock_rank1 host col ds N h]
    simp only [List.zipWith_cons_cons, List.zipWith_nil_right]
    rw [slice0_append0 (to_native_byteorder host ds) h1 h2]
  · rw [chunkBlock_rank2 host col ds N w h, chunkBlock_rank2 host col ds N w h,
      chunkBlock_rank2 host col ds N w h]
    rw [zipWith_map_same]
    apply List.map_congr_left
    intro i hi
    simp only
    rw [slice0_append0 ((to_native_byteorder host ds).colExtract i) h1 h2]

theorem chunkBlocks_zip_append (host : Endian) (group : HGroup) (N : Nat) :
    ∀ (kcols : List String), (∀ c ∈ kcols, ∃ ds, lookupA group c = some ds ∧
      ds.shape.head? = some N ∧ ds.ndim ≤ 2) →
    ∀ {s m e : Nat}, s ≤ m → m ≤ e →
    List.zipWith (fun p q => (p.1, NArr.append0 p.2 q.2))
      (chunkBlocks host group s m kcols) (chunkBlocks host group m e kcols) =
      chunkBlocks host group s e kcols := by
  intro kcols
  induction kcols with
  | nil => intro _ s m e h1 h2; rfl
  | cons c rest ih =>
    intro hk s m e h1 h2
    obtain ⟨ds, hds, hsh, hnd⟩ := hk c (List.mem_cons_self c rest)
    have ihr := ih (fun c2 hc2 => hk c2 (List.mem_cons_of_mem c hc2)) h1 h2
    unfold chunkBlocks at ihr ⊢
    rw [List.flatMap_cons, List.flatMap_cons, List.flatMap_cons, hds]
    show List.zipWith _ (chunkBlock host s m c ds ++ _) (chunkBlock host m e c ds ++ _) = _
    have hlen : (chunkBlock host s m c ds).length = (chunkBlock host m e c ds).length := by
      rcases shape_cases ds N hsh hnd with h | ⟨w, h⟩
      · rw [chunkBlock_rank1 host c ds N h, chunkBlock_rank1 host c ds N h]
        rfl
      · rw [chunkBlock_rank2 host c ds N w h, chunkBlock_rank2 host c ds N w h]
        simp
    rw [List.zipWith_append _ _ _ _ _ hlen]
    rw [chunkBlock_append host c ds N hsh hnd h1 h2, ihr]
    rfl

theorem rangeList_append {s m e : Nat} (h1 : s ≤ m) (h2 : m ≤ e) :
    rangeList s m ++ rangeList m e = rangeList s e := by
  unfold rangeList
  have hr := List.range'_append s (m - s) (e - m) 1
  simp only [Nat.one_mul] at hr
  rw [show s + (m - s) = m from by omega] at hr
  rw [hr]
  congr 1
  omega

theorem chunkTable_vappend (host : Endian) (group : HGroup) (kcols : List String) (N : Nat)
    (hk : ∀ c ∈ kcols, ∃ ds, lookupA group c = some ds ∧ ds.shape.head? = some N ∧
      ds.ndim ≤ 2)
    {s m e : Nat} (h1 : s ≤ m) (h2 : m ≤ e) :
    Table.vappend (chunkTable host group kcols s m) (chunkTable host group kcols m e) =
      chunkTable host group kcols s e := by
  unfold chunkTable Table.vappend
  simp only [Table.mk.injEq]
  exact ⟨rangeList_append h1 h2, chunkBlocks_zip_append host group N kcols hk h1 h2⟩

theorem read_h5py_cols_eq (host : Endian) (group : HGroup) :
    ∀ (cols : List String), (∀ c ∈ cols, (lookupA group c).isSome) →
    read_h5py_cols host group cols = .ok (groupBlocks host group cols) := by
  intro cols
  induction cols with
  | nil => intro _; rfl
  | cons c rest ih =>
    intro hex
    obtain ⟨ds, hds⟩ := Option.isSome_iff_exists.mp (hex c (List.mem_cons_self c rest))
    have ihr := ih (fun x hx => hex x (List.mem_cons_of_mem c hx))
    unfold groupBlocks at ihr ⊢
    simp only [read_h5py_cols, hds, ihr, List.flatMap_cons]
    rfl

theorem filterCols_eq (group : HGroup) :
    ∀ (cols : List String), (∀ c ∈ cols, (lookupA group c).isSome) →
    filterCols group cols = .ok (cols.filter (keepCol group)) := by
  intro cols
  induction cols with
  | nil => intro _; rfl
  | cons c rest ih =>
    intro hex
    obtain ⟨ds, hds⟩ := Option.isSome_iff_exists.mp (hex c (List.mem_cons_self c rest))
    have ihr := ih (fun x hx => hex x (List.mem_cons_of_mem c hx))
    simp only [filterCols, hds, ihr, List.filter_cons]
    by_cases h : ds.ndim > 2
    · have hkeep : keepCol group c = false := by
        unfold keepCol
        rw [hds]
        show decide (ds.ndim ≤ 2) = false
        simpa using h
      rw [if_pos h, hkeep]
      simp
    · have hkeep : keepCol group c = true := by
        unfold keepCol
        rw [hds]
        show decide (ds.ndim ≤ 2) = true
        simpa using Nat.le_of_not_lt h
      rw [if_neg h, hkeep]
      simp

theorem chunk_cols_eq (host : Endian) (group : HGroup) (s e : Nat) :
    ∀ (cols : List String), (∀ c ∈ cols, (lookupA group c).isSome) →
    chunk_cols host group s e cols = .ok (chunkBlocks host group s e cols) := by
  intro cols
  induction cols with
  | nil => intro _; rfl
  | cons c rest ih =>
    intro hex
    obtain ⟨ds, hds⟩ := Option.isSome_iff_exists.mp (hex c (List.mem_cons_self c rest))
    have ihr := ih (fun x hx => hex x (List.mem_cons_of_mem c hx))
    unfold chunkBlocks at ihr ⊢
    simp only [chunk_cols, hds, ihr, List.flatMap_cons]
    rfl

theorem chunkLoop_eq (host : Endian) (group : HGroup) (kcols : List String) (cz n : Nat)
    (hex : ∀ c ∈ kcols, (lookupA group c).isSome) :
    ∀ idxs : List Nat, chunkLoop host group kcols cz n idxs =
      ⟨idxs.map (fun i => (chunkTable host group kcols (i * cz) (min n ((i + 1) * cz)),
        i * cz, min n ((i + 1) * cz))), none⟩ := by
  intro idxs
  induction idxs with
  | nil => rfl
  | cons i rest ih =>
    have hcc := chunk_cols_eq host group (i * cz) (min n ((i + 1) * cz)) kcols hex
    simp only [chunkLoop, hcc, ih, List.map_cons]
    rfl

theorem nchunks_eq (N c : Nat) (hc : 1 ≤ c) (hN : 1 ≤ N) :
    (N + c - 1) / c = (N - 1) / c + 1 := by
  have h1 : N + c - 1 = (N - 1) + c := by omega
  rw [h1, Nat.add_div_right _ hc]

theorem ceil_mul_ge (N c : Nat) (hc : 1 ≤ c) (hN : 1 ≤ N) : N ≤ ((N + c - 1) / c) * c := by
  rw [nchunks_eq N c hc hN, Nat.add_mul, Nat.one_mul]
  have hd := Nat.div_add_mod (N - 1) c
  have hm : (N - 1) % c < c := Nat.mod_lt _ hc
  have h2 : c * ((N - 1) / c) = ((N - 1) / c) * c := Nat.mul_comm _ _
  omega

theorem chunk_start_lt (N c k : Nat) (hc : 1 ≤ c) (hN : 1 ≤ N)
    (hk : k + 1 ≤ (N + c - 1) / c) : k * c < N := by
  rw [nchunks_eq N c hc hN] at hk
  have hk2 : k ≤ (N - 1) / c := by omega
  have h1 : k * c ≤ ((N - 1) / c) * c := Nat.mul_le_mul_right c hk2
  have h3 : ((N - 1) / c) * c ≤ N - 1 := Nat.div_mul_le_self _ _
  omega

theorem concat_chunkTables (host : Endian) (group : HGroup) (kcols : List String)
    (N c : Nat) (hc : 1 ≤ c) (hN : 1 ≤ N)
    (hk : ∀ col ∈ kcols, ∃ ds, lookupA group col = some ds ∧ ds.shape.head? = some N ∧
      ds.ndim ≤ 2) :
    ∀ (j k : Nat), k + j = (N + c - 1) / c →
      List.foldl Table.vappend (chunkTable host group kcols 0 (min N (k * c)))
        ((List.range' k j).map (fun i => chunkTable host group kcols (i * c)
          (min N ((i + 1) * c)))) = chunkTable host group kcols 0 N := by
  intro j
  induction j with
  | zero =>
    intro k hkj
    rw [Nat.add_zero] at hkj
    have hge := ceil_mul_ge N c hc hN
    have hmin : min N (k * c) = N := by
      rw [hkj]
      omega
    rw [hmin]
    rfl
  | succ jj ih =>
    intro k hkj
    have hklt : k * c < N := chunk_start_lt N c k hc hN (by omega)
    have hmin : min N (k * c) = k * c := by omega
    have hexp : (k + 1) * c = k * c + c := by ring
    have hle : k * c ≤ min N ((k + 1) * c) := by
      rw [hexp]
      omega
    rw [List.range'_succ, List.map_cons, List.foldl_cons, hmin]
    rw [chunkTable_vappend host group kcols N hk (Nat.zero_le (k * c)) hle]
    exact ih (k + 1) (by omega)

theorem chunkBlocks_full_filtered (host : Endian) (group : HGroup) (N : Nat) :
    ∀ (cols : List String),
    (∀ c ∈ cols, ∃ ds, lookupA group c = some ds ∧ ds.shape.head? = some N ∧
      ds.data.length = ds.shape.prod) →
    chunkBlocks host group 0 N (cols.filter (keepCol group)) =
      groupBlocks host group cols := by
  intro cols
  induction cols with
  | nil => intro _; rfl
  | cons c rest ih =>
    intro hp
    obtain ⟨ds, hds, hsh, hlen⟩ := hp c (List.mem_cons_self c rest)
    have ihr := ih (fun x hx => hp x (List.mem_cons_of_mem c hx))
    rw [List.filter_cons]
    by_cases hnd : ds.ndim ≤ 2
    · have hkeep : keepCol group c = true := by
        unfold keepCol
        rw [hds]
        show decide (ds.ndim ≤ 2) = true
        simpa using hnd
      rw [if_pos hkeep]
      unfold chunkBlocks groupBlocks at ihr ⊢
      rw [List.flatMap_cons, List.flatMap_cons, hds]
      show chunkBlock host 0 N c ds ++ _ = h5Block host c ds ++ _
      rw [chunkBlock_full host c ds N hsh hnd hlen, ihr]
    · have hkeep : keepCol group c = false := by
        unfold keepCol
        rw [hds]
        show decide (ds.ndim ≤ 2) = false
        simpa using hnd
      rw [if_neg (by rw [hkeep]; exact Bool.false_ne_true)]
      unfold groupBlocks
      rw [List.flatMap_cons, hds]
      show _ = h5Block host c ds ++ _
      rw [h5Block_rank_high host c ds (by omega)]
      rw [List.nil_append]
      exact ihr

theorem groupBlocks_head_dim (host : Endian) (group : HGroup) (N : Nat) :
    ∀ (cols : List String),
    (∀ c ∈ cols, ∃ ds, lookupA group c = some ds ∧ ds.shape.head? = some N) →
    ∀ pr ∈ groupBlocks host group cols, pr.2.shape.headD 0 = N := by
  intro cols
  induction cols with
  | nil => intro _ pr hpr; simp [groupBlocks] at hpr
  | cons c rest ih =>
    intro hp pr hpr
    obtain ⟨ds, hds, hsh⟩ := hp c (List.mem_cons_self c rest)
    unfold groupBlocks at hpr
    rw [List.flatMap_cons, hds] at hpr
    replace hpr : pr ∈ h5Block host c ds ++ rest.flatMap
        (fun x => (lookupA group x).elim [] (h5Block host x)) := hpr
    rw [List.mem_append] at hpr
    rcases hpr with hpr | hpr
    · by_cases hnd : ds.ndim ≤ 2
      · rcases shape_cases ds N hsh hnd with h | ⟨w, h⟩
        · rw [h5Block_rank1 host c ds N h] at hpr
          simp only [List.mem_singleton] at hpr
          rw [hpr]
          show (to_native_byteorder host ds).shape.headD 0 = N
          rw [tn_shape, h]
          rfl
        · rw [h5Block_rank2 host c ds N w h] at hpr
          rw [List.mem_map] at hpr
          obtain ⟨i, hi, hpr⟩ := hpr
          rw [← hpr]
          show ((to_native_byteorder host ds).colExtract i).shape.headD 0 = N
          unfold NArr.colExtract
          rw [tn_shape, h]
          rfl
      · rw [h5Block_rank_high host c ds (by omega)] at hpr
        simp at hpr
    · exact ih (fun x hx => hp x (List.mem_cons_of_mem c hx)) pr hpr

theorem read_h5py_ok (host : Endian) (env : Env) (file_path key : String)
    (entry : HEntry) (group : HGroup) (cols : List String) (N : Nat)
    (hfile : env.files file_path = some entry) (hw : entry.writable = true)
    (hgrp : lookupA entry.content key = some group)
    (hex : ∀ c ∈ cols, (lookupA group c).isSome)
    (hdim : ∀ c ∈ cols, ∃ ds, lookupA group c = some ds ∧ ds.shape.head? = some N)
    (hnz : groupBlocks host group cols ≠ []) :
    read_h5py host env file_path key (some cols) =
      .ok ⟨rangeList 0 N, groupBlocks host group cols⟩ := by
  have hcols := read_h5py_cols_eq host group cols hex
  obtain ⟨p0, rest0, hsplit⟩ : ∃ p0 rest0, groupBlocks host group cols = p0 :: rest0 := by
    cases hgb : groupBlocks host group cols with
    | nil => exact absurd hgb hnz
    | cons a b => exact ⟨a, b, rfl⟩
  have hp0 : p0.2.shape.headD 0 = N :=
    groupBlocks_head_dim host group N cols hdim p0
      (by rw [hsplit]; exact List.mem_cons_self p0 rest0)
  unfold read_h5py h5pyOpen
  rw [hfile]
  simp only [hw, Bool.true_eq_false, and_false, if_false, hgrp, hcols, hsplit,
    List.headD_cons, hp0]

theorem read_h5py_chunked_run_eq (host : Endian) (env : Env) (file_path key : String)
    (entry : HEntry) (group : HGroup) (cols : List String) (N c : Nat)
    (hfile : env.files file_path = some entry) (hw : entry.writable = true)
    (hgrp : lookupA entry.content key = some group)
    (hgne : group ≠ [])
    (hshape : ∀ pr ∈ group, pr.2.shape.head? = some N)
    (hex : ∀ col ∈ cols, (lookupA group col).isSome) :
    read_h5py_chunked_run host env file_path key (some cols) (some c) =
      ⟨(List.range ((N + c - 1) / c)).map (fun i =>
        (chunkTable host group (cols.filter (keepCol group)) (i * c) (min N ((i + 1) * c)),
          i * c, min N ((i + 1) * c))), none⟩ := by
  have hexk : ∀ x ∈ cols.filter (keepCol group), (lookupA group x).isSome := fun x hx =>
    hex x (List.mem_filter.mp hx).1
  have hnev : h5py_get_n_events env file_path key = .ok N := by
    obtain ⟨pr0, grest, hgeq⟩ : ∃ pr0 grest, group = pr0 :: grest := by
      cases hg2 : group with
      | nil => exact absurd hg2 hgne
      | cons a b => exact ⟨a, b, rfl⟩
    have hsh0 : pr0.2.shape.head? = some N :=
      hshape pr0 (by rw [hgeq]; exact List.mem_cons_self pr0 grest)
    unfold h5py_get_n_events h5pyOpen
    rw [hfile]
    simp [hw, hgrp, hgeq, hsh0]
  have hfc := filterCols_eq group cols hex
  have hcl := chunkLoop_eq host group (cols.filter (keepCol group)) c N hexk
    (List.range ((N + c - 1) / c))
  unfold read_h5py_chunked_run h5pyOpen
  rw [hfile]
  simp only [hw, Bool.true_eq_false, and_false, if_false, hgrp, hnev, hfc, hcl]

/-- C1: for a raw container group of `N` rows and any chunk size `c` in
`1..N` with a fixed (existing) column set that yields at least one table
column, the chunked reader yields `ceil(N/c)` chunks in ascending order with
`start_i = i*c` and `end_i = min N ((i+1)*c)`; hence `start_0 = 0`, each
non-final chunk ends at `(i+1)*c = start_{i+1}` and holds exactly `c` rows,
the final chunk ends at `N`; and the concatenation of the yielded frames, in
order, equals the table of the single unchunked `read_h5py` over the same
columns. -/
theorem read_h5py_chunked_partition_concat (host : Endian) (env : Env)
    (file_path key : String) (entry : HEntry) (group : HGroup) (cols : List String)
    (N c : Nat)
    (hfile : env.files file_path = some entry) (hw : entry.writable = true)
    (hgrp : lookupA entry.content key = some group)
    (hgne : group ≠ [])
    (hshape : ∀ pr ∈ group, pr.2.shape.head? = some N)
    (hlen : ∀ pr ∈ group, pr.2.data.length = pr.2.shape.prod)
    (hex : ∀ col ∈ cols, (lookupA group col).isSome)
    (hnz : groupBlocks host group cols ≠ [])
    (hc : 1 ≤ c) (hcN : c ≤ N) :
    (read_h5py_chunked_run host env file_path key (some cols) (some c)).err = none ∧
    (read_h5py_chunked_run host env file_path key (some cols) (some c)).yielded.length =
      (N + c - 1) / c ∧
    (read_h5py_chunked_run host env file_path key (some cols) (some c)).yielded.map
      (fun ch => ch.2.1) = (List.range ((N + c - 1) / c)).map (fun i => i * c) ∧
    (read_h5py_chunked_run host env file_path key (some cols) (some c)).yielded.map
      (fun ch => ch.2.2) =
      (List.range ((N + c - 1) / c)).map (fun i => min N ((i + 1) * c)) ∧
    (∀ i, i + 1 < (N + c - 1) / c →
      min N ((i + 1) * c) = (i + 1) * c ∧ min N ((i + 1) * c) - i * c = c) ∧
    min N (((N + c - 1) / c) * c) = N ∧
    read_h5py host env file_path key (some cols) =
      .ok (concatTables ((read_h5py_chunked_run host env file_path key (some cols)
        (some c)).yielded.map (fun ch => ch.1))) := by
  have hN : 1 ≤ N := le_trans hc hcN
  have hrun := read_h5py_chunked_run_eq host env file_path key entry group cols N c
    hfile hw hgrp hgne hshape hex
  have hkprops : ∀ x ∈ cols.filter (keepCol group), ∃ ds, lookupA group x = some ds ∧
      ds.shape.head? = some N ∧ ds.ndim ≤ 2 := by
    intro x hx
    obtain ⟨hxc, hkeep⟩ := List.mem_filter.mp hx
    obtain ⟨ds, hds⟩ := Option.isSome_iff_exists.mp (hex x hxc)
    refine ⟨ds, hds, hshape (x, ds) (lookupA_mem hds), ?_⟩
    unfold keepCol at hkeep
    rw [hds] at hkeep
    exact of_decide_eq_true hkeep
  have hdim : ∀ x ∈ cols, ∃ ds, lookupA group x = some ds ∧ ds.shape.head? = some N := by
    intro x hx
    obtain ⟨ds, hds⟩ := Option.isSome_iff_exists.mp (hex x hx)
    exact ⟨ds, hds, hshape (x, ds) (lookupA_mem hds)⟩
  have hdlen : ∀ x ∈ cols, ∃ ds, lookupA group x = some ds ∧ ds.shape.head? = some N ∧
      ds.data.length = ds.shape.prod := by
    intro x hx
    obtain ⟨ds, hds⟩ := Option.isSome_iff_exists.mp (hex x hx)
    exact ⟨ds, hds, hshape (x, ds) (lookupA_mem hds), hlen (x, ds) (lookupA_mem hds)⟩
  refine ⟨?_, ?_, ?_, ?_, ?_, ?_, ?_⟩
  · rw [hrun]
  · rw [hrun]
    simp
  · rw [hrun]
    simp [List.map_map, Function.comp]
  · rw [hrun]
    simp [List.map_map, Function.comp]
  · intro i hi
    have hlt : (i + 1) * c < N := chunk_start_lt N c (i + 1) hc hN (by omega)
    have hexp : (i + 1) * c = i * c + c := by ring
    constructor
    · omega
    · omega
  · have hge := ceil_mul_ge N c hc hN
    omega
  · rw [hrun]
    rw [List.map_map]
    have hcomp : ((fun ch => ch.1) ∘ (fun i =>
        (chunkTable host group (cols.filter (keepCol group)) (i * c) (min N ((i + 1) * c)),
          i * c, min N ((i + 1) * c)))) = fun i =>
        chunkTable host group (cols.filter (keepCol group)) (i * c) (min N ((i + 1) * c)) :=
      rfl
    rw [hcomp]
    have hconc : concatTables ((List.range ((N + c - 1) / c)).map
        (fun i => chunkTable host group (cols.filter (keepCol group)) (i * c)
          (min N ((i + 1) * c)))) =
        chunkTable host group (cols.filter (keepCol group)) 0 N := by
      rw [nchunks_eq N c hc hN, List.range_eq_range', List.range'_succ, List.map_cons]
      unfold concatTables
      have hstep := concat_chunkTables host group (cols.filter (keepCol group)) N c hc hN
        hkprops ((N - 1) / c) 1 (by rw [nchunks_eq N c hc hN]; omega)
      simpa using hstep
    rw [hconc]
    have hct : chunkTable host group (cols.filter (keepCol group)) 0 N =
        ⟨rangeList 0 N, groupBlocks host group cols⟩ := by
      unfold chunkTable
      rw [chunkBlocks_full_filtered host group N cols hdlen]
    rw [hct]
    exact read_h5py_ok host env file_path key entry group cols N hfile hw hgrp hex hdim hnz

/-- C1 counterexample: the claim quantifies over every fixed column set, but
for the empty column set the reassembled chunks and the unchunked read
differ: each chunk is an empty-column frame carrying its global index, so
the concatenation has `N` (here 3) index entries, while the unchunked
`read_h5py` builds `pd.DataFrame()` with no column assignment and therefore
an empty index. -/
theorem chunked_concat_empty_columns_mismatch :
    (read_h5py_chunked_run .little tinyEnv "tiny.h5" "events" (some []) (some 2)).err =
      none ∧
    concatTables ((read_h5py_chunked_run .little tinyEnv "tiny.h5" "events" (some [])
      (some 2)).yielded.map (fun ch => ch.1)) = ⟨rangeList 0 3, []⟩ ∧
    read_h5py .little tinyEnv "tiny.h5" "events" (some []) = .ok ⟨[], []⟩ ∧
    ¬(read_h5py .little tinyEnv "tiny.h5" "events" (some []) =
      .ok (concatTables ((read_h5py_chunked_run .little tinyEnv "tiny.h5" "events" (some [])
        (some 2)).yielded.map (fun ch => ch.1)))) := by
  decide

/-- C1 witness: the amended statement at the 3-row tiny file with chunk
size 2 and the column set `['energy']`. -/
theorem read_h5py_chunked_partition_concat_witness :
    (read_h5py_chunked_run .little tinyEnv "tiny.h5" "events" (some ["energy"])
      (some 2)).err = none ∧
    (read_h5py_chunked_run .little tinyEnv "tiny.h5" "events" (some ["energy"])
      (some 2)).yielded.length = 2 ∧
    read_h5py .little tinyEnv "tiny.h5" "events" (some ["energy"]) =
      .ok (concatTables ((read_h5py_chunked_run .little tinyEnv "tiny.h5" "events"
        (some ["energy"]) (some 2)).yielded.map (fun ch => ch.1))) := by
  have h := read_h5py_chunked_partition_concat .little tinyEnv "tiny.h5" "events"
    ⟨[("events", [("energy", ⟨[3], ⟨.eq, 1⟩, [[1], [2], [3]]⟩)])], true⟩
    [("energy", ⟨[3], ⟨.eq, 1⟩, [[1], [2], [3]]⟩)] ["energy"] 3 2
    (by decide) rfl (by decide) (by decide) (by decide) (by decide) (by decide)
    (by decide) (by decide) (by decide)
  exact ⟨h.1, h.2.1, h.2.2.2.2.2.2⟩

theorem getD_values_colExtract (host : Endian) (ds : NArr) (N w i r : Nat)
    (hsh : ds.shape = [N, w]) (hwf : ds.wf) (hiw : i < w) (hr : r < N) :
    (NArr.values host ((to_native_byteorder host ds).colExtract i)).getD r 0 =
      NArr.elemVal host ds.dtype.byteorder (ds.data.getD (r * w + i) []) := by
  have hN2 : (to_native_byteorder host ds).shape = [N, w] := by rw [tn_shape, hsh]
  unfold NArr.values NArr.colExtract
  rw [hN2, tn_dtype, tn_data, List.map_map]
  show (List.map _ (List.range ([N, w].headD 0))).getD r 0 = _
  rw [List.getD_eq_getElem?_getD, List.getElem?_map,
    List.getElem?_range (show r < [N, w].headD 0 from hr)]
  show NArr.elemVal host (tnD host ds.dtype).byteorder
    ((ds.data.map (tnE host ds.dtype)).getD (r * ([N, w].tail.headD 0) + i) []) = _
  rw [getD_map_nil (tnE host ds.dtype) (tnE_nil host ds.dtype)]
  apply tn_elem_value
  intro hna
  obtain ⟨hlen, hbytes, hna1⟩ := hwf
  have hbound : r * [N, w].tail.headD 0 + i < ds.data.length := by
    rw [hlen, hsh]
    show r * w + i < [N, w].prod
    have hp : [N, w].prod = N * w := by simp
    rw [hp]
    calc r * w + i < r * w + w := by omega
      _ = (r + 1) * w := by ring
      _ ≤ N * w := Nat.mul_le_mul_right w (by omega)
  rw [List.getD_eq_getElem?_getD, List.getElem?_eq_getElem hbound]
  show (ds.data[r * [N, w].tail.headD 0 + i]).length ≤ 1
  rw [hbytes (ds.data[r * [N, w].tail.headD 0 + i]) (List.getElem_mem hbound), hna1 hna]

/-- C5: a rank-2 dataset of width `W` named `x` that `read_h5py` processes
contributes exactly the `W` columns `x_0 … x_{W-1}`, in index order, to the
resulting table (between the blocks of the names before and after it), and
for every row `r` the tuple `(x_0[r], …, x_{W-1}[r])` equals the logical
values of row `r` of the original dataset, in order. -/
theorem read_h5py_rank2_flatten (host : Endian) (env : Env) (file_path key : String)
    (entry : HEntry) (group : HGroup) (l1 l2 : List String) (x : String) (ds : NArr)
    (N w : Nat)
    (hfile : env.files file_path = some entry) (hw : entry.writable = true)
    (hgrp : lookupA entry.content key = some group)
    (hex : ∀ col ∈ l1 ++ x :: l2, (lookupA group col).isSome)
    (hds : lookupA group x = some ds)
    (hsh : ds.shape = [N, w])
    (hwf : ds.wf) :
    Except.map (fun T => T.cols) (read_h5py host env file_path key (some (l1 ++ x :: l2))) =
      .ok (groupBlocks host group l1 ++
        (List.range w).map (fun i => (x ++ "_" ++ toString i,
          (to_native_byteorder host ds).colExtract i)) ++
        groupBlocks host group l2) ∧
    (∀ r, r < N → (List.range w).map (fun i =>
        (NArr.values host ((to_native_byteorder host ds).colExtract i)).getD r 0) =
      (List.range w).map (fun i =>
        NArr.elemVal host ds.dtype.byteorder (ds.data.getD (r * w + i) []))) := by
  constructor
  · have hcols := read_h5py_cols_eq host group (l1 ++ x :: l2) hex
    have hgb : groupBlocks host group (l1 ++ x :: l2) =
        groupBlocks host group l1 ++ h5Block host x ds ++ groupBlocks host group l2 := by
      unfold groupBlocks
      rw [List.flatMap_append, List.flatMap_cons, hds]
      show _ ++ (h5Block host x ds ++ _) = _
      rw [List.append_assoc]
    unfold read_h5py h5pyOpen
    rw [hfile]
    simp only [hw, Bool.true_eq_false, and_false, if_false, hgrp, hcols]
    show Except.ok _ = Except.ok _
    congr 1
    rw [hgb, h5Block_rank2 host x ds N w hsh]
  · intro r hr
    apply List.map_congr_left
    intro i hi
    exact getD_values_colExtract host ds N w i r hsh hwf (List.mem_range.mp hi) hr

/-- C5 witness: the scenario's rank-2 dataset `position` (shape 10×2) read
together with `energy`, with the row tuple checked at row 3. -/
theorem read_h5py_rank2_flatten_witness :
    Except.map (fun T => T.cols) (read_h5py .little scenarioEnv "events.h5" "events"
      (some (["energy"] ++ "position" :: []))) =
      .ok (groupBlocks .little [("energy", energyDS), ("position", positionDS)] ["energy"] ++
        (List.range 2).map (fun i => ("position" ++ "_" ++ toString i,
          (to_native_byteorder .little positionDS).colExtract i)) ++
        groupBlocks .little [("energy", energyDS), ("position", positionDS)] []) ∧
    (List.range 2).map (fun i => (NArr.values .little
        ((to_native_byteorder .little positionDS).colExtract i)).getD 3 0) =
      (List.range 2).map (fun i => NArr.elemVal .little positionDS.dtype.byteorder
        (positionDS.data.getD (3 * 2 + i) [])) :=
  ⟨(read_h5py_rank2_flatten .little scenarioEnv "events.h5" "events"
      ⟨scenarioFile, true⟩ [("energy", energyDS), ("position", positionDS)]
      ["energy"] [] "position" positionDS 10 2
      (by decide) rfl (by decide) (by decide) (by decide) (by decide)
      (by unfold NArr.wf; decide)).1,
   (read_h5py_rank2_flatten .little scenarioEnv "events.h5" "events"
      ⟨scenarioFile, true⟩ [("energy", energyDS), ("position", positionDS)]
      ["energy"] [] "position" positionDS 10 2
      (by decide) rfl (by decide) (by decide) (by decide) (by decide)
      (by unfold NArr.wf; decide)).2 3 (by decide)⟩
